import Mathlib

/-!
Verification of the event-driven core of the chat-plays-chess service.

The development shallowly embeds the Rust sources:

* `src/stream/model.rs` — `Timer`, `Delays`, presentation data;
* `src/twitch/command.rs` — chat-command parsing (`Command::from_str` and its
  regex `!(game|bullet|rapid|classical)\s+(\w+)`);
* `src/engine/votes/settings.rs` — the settings vote tracker;
* `src/engine/votes/game.rs` — the per-game vote tracker;
* `src/engine/mod.rs` — `Engine::make_move`;
* `src/lichess/game.rs` — `Game` and `GameManager`.

The external `chess` crate (board representation, move legality, board update)
is out of scope of the specification and is modelled as a record of operations
(`ChessApi`) over abstract `Board` and `Move` types; every statement about the
game manager is universally quantified over that record, and concrete
evaluations instantiate it with a small test instance.

Machine integers (`u8`, `u32`, `u64`, `usize`) are modelled as `Nat`: none of
the embedded computations can overflow for the values the program handles
(delay counters are clamped at ten, clock values are bounded by game clocks).
-/

namespace ChatPlaysChess

/-- Speed of a game, from `lichess_api::model::Speed`. -/
inductive Speed where
  | UltraBullet
  | Bullet
  | Blitz
  | Rapid
  | Classical
  | Correspondence
deriving DecidableEq, Repr

/-- The two chess colors, modelling `chess::Color`. -/
inductive Color where
  | White
  | Black
deriving DecidableEq, Repr

/-- Color negation, modelling `!color` (the `Not` impl of `chess::Color`). -/
def Color.other : Color → Color
  | .White => .Black
  | .Black => .White

/-- `Timer` from `src/stream/model.rs`: minutes and seconds remaining. -/
structure Timer where
  minutes : Nat
  seconds : Nat
deriving DecidableEq, Repr

namespace Timer

/-- `Timer::new(milliseconds)` from `src/stream/model.rs`. -/
def new (milliseconds : Nat) : Timer :=
  { minutes := milliseconds / (60 * 1000), seconds := (milliseconds % (60 * 1000)) / 1000 }

/-- `Timer::as_millis` from `src/stream/model.rs`. -/
def as_millis (t : Timer) : Nat :=
  t.minutes * 60 * 1000 + t.seconds * 1000

/-- `Timer::elapse(milliseconds)` from `src/stream/model.rs`. -/
def elapse (t : Timer) (milliseconds : Nat) : Timer :=
  let total := t.as_millis
  if milliseconds < total then new (total - milliseconds) else new 0

theorem as_millis_new_le (ms : Nat) : (new ms).as_millis ≤ ms := by
  have h1 : ms % (60 * 1000) / 1000 * 1000 ≤ ms % (60 * 1000) := Nat.div_mul_le_self _ _
  have h2 : 60 * 1000 * (ms / (60 * 1000)) + ms % (60 * 1000) = ms := Nat.div_add_mod ms _
  simp only [new, as_millis]
  omega

end Timer

/-- C8: `Timer::elapse(d)` is monotone non-increasing on the remaining time
(in milliseconds), and once the elapsed duration `d` reaches the remaining
time the timer saturates at exactly zero (it never goes negative). -/
theorem timer_elapse_saturating (t : Timer) (d : Nat) :
    (t.elapse d).as_millis ≤ t.as_millis ∧ (t.as_millis ≤ d → t.elapse d = Timer.new 0) := by
  constructor
  · simp only [Timer.elapse]
    split
    · exact le_trans (Timer.as_millis_new_le _) (Nat.sub_le _ _)
    · exact le_trans (Timer.as_millis_new_le 0) (Nat.zero_le _)
  · intro h
    simp only [Timer.elapse]
    rw [if_neg (by omega)]

/-- Concrete instance of C8: a timer showing 1:30 (90000 ms) elapsed by
100000 ms becomes exactly `Timer::new(0)`. -/
theorem timer_elapse_saturating_witness :
    Timer.elapse { minutes := 1, seconds := 30 } 100000 = Timer.new 0 :=
  (timer_elapse_saturating { minutes := 1, seconds := 30 } 100000).2 (by decide)

/-! ## Chat command parsing (`src/twitch/command.rs`) -/

namespace Twitch

/-- `GameMode` from `src/twitch/command.rs`. Note the source declares
`Blitz`, not `Bullet`, even though the settings tracker
(`src/engine/votes/settings.rs`) matches on `GameMode::Bullet` and keeps a
`bullet` set. -/
inductive GameMode where
  | Blitz
  | Rapid
  | Classical
deriving DecidableEq, Repr

/-- `Setting` from `src/twitch/command.rs`: `GameMode(GameMode)`. -/
inductive Setting where
  | game_mode (mode : GameMode)
deriving DecidableEq, Repr

/-- `Command` from `src/twitch/command.rs`. -/
inductive Command where
  | VoteGame (action : String)
  | VoteSetting (setting : Setting) (isOn : Bool)
deriving DecidableEq, Repr

/-- `Error` from `src/twitch/command.rs`. -/
inductive CommandError where
  | ParseError
deriving DecidableEq, Repr

/-- A word character of the regex class `\w` (ASCII: the chat messages the
program receives are ASCII commands). -/
def isWordChar (c : Char) : Bool :=
  c.isAlphanum || c = '_'

/-- A whitespace character of the regex class `\s`. -/
def isSpaceChar (c : Char) : Bool :=
  c = ' ' || c = '\t' || c = '\n' || c = '\r' || c = '\x0b' || c = '\x0c'

/-- Strip a literal keyword from the front of the input, character by
character. -/
def dropKeyword : List Char → List Char → Option (List Char)
  | [], input => some input
  | _ :: _, [] => none
  | k :: ks, c :: cs => if c = k then dropKeyword ks cs else none

/-- The alternation `(game|bullet|rapid|classical)` of the command regex,
tried in the order the regex lists the branches (no branch is a prefix of
another, so at most one can match). -/
def matchAlternation (input : List Char) : Option (String × List Char) :=
  match dropKeyword "game".toList input with
  | some rest => some ("game", rest)
  | none =>
    match dropKeyword "bullet".toList input with
    | some rest => some ("bullet", rest)
    | none =>
      match dropKeyword "rapid".toList input with
      | some rest => some ("rapid", rest)
      | none =>
        match dropKeyword "classical".toList input with
        | some rest => some ("classical", rest)
        | none => none

/-- One attempted match of `!(game|bullet|rapid|classical)\s+(\w+)` anchored
at the head of the input, yielding the two capture groups. `\s+` and `\w+`
are greedy; as `\s` and `\w` are disjoint classes, the greedy match is the
only possible one. -/
def matchAt (input : List Char) : Option (String × String) :=
  match input with
  | '!' :: after =>
    match matchAlternation after with
    | some (kw, rest) =>
      match rest with
      | c :: _ =>
        if isSpaceChar c then
          let word := (rest.dropWhile isSpaceChar).takeWhile isWordChar
          if word.isEmpty then none else some (kw, word.asString)
        else none
      | [] => none
    | none => none
  | _ => none

/-- Unanchored leftmost search of the command regex over the message,
modelling `Regex::captures`: the match at the leftmost starting position
wins. Returns the two capture groups. -/
def commandCaptures : List Char → Option (String × String)
  | [] => none
  | c :: rest =>
    match matchAt (c :: rest) with
    | some r => some r
    | none => commandCaptures rest

/-- `Command::from_str` from `src/twitch/command.rs`. When the regex matches,
both capture groups participate, so `captures.len() == 3` always holds. The
match arms are the source's: `"game"`, `"blitz"`, `"rapid"`, `"classical"`,
with a catch-all `ParseError`. -/
def Command.fromStr (s : String) : Except CommandError Command :=
  match commandCaptures s.toList with
  | some (command, arg1) =>
    let isOn : Bool :=
      match arg1 with
      | "on" => true
      | "off" => false
      | _ => false
    match command with
    | "game" => .ok (.VoteGame arg1)
    | "blitz" => .ok (.VoteSetting (.game_mode .Blitz) isOn)
    | "rapid" => .ok (.VoteSetting (.game_mode .Rapid) isOn)
    | "classical" => .ok (.VoteSetting (.game_mode .Classical) isOn)
    | _ => .error .ParseError
  | none => .error .ParseError

end Twitch

/-- C3: the command regex captures `("bullet", "on")` on the message
`!bullet on`, yet `Command::from_str` rejects it with a parse error, because
the match arms handle `"blitz"` — a word the regex never captures — instead
of `"bullet"`; `!game`, `!rapid` and `!classical` messages parse as the claim
states. The `GameMode` enum offers no `Bullet` variant at all, while
`src/engine/votes/settings.rs` matches on `GameMode::Bullet`, so the parser's
keyword set is a slip of the code rather than of the spec. -/
theorem bullet_command_parse_bug :
    Twitch.commandCaptures "!bullet on".toList = some ("bullet", "on") ∧
    Twitch.Command.fromStr "!bullet on" = Except.error Twitch.CommandError.ParseError ∧
    Twitch.Command.fromStr "!game e2e4" = Except.ok (Twitch.Command.VoteGame "e2e4") ∧
    Twitch.Command.fromStr "!rapid on" =
      Except.ok (Twitch.Command.VoteSetting (.game_mode .Rapid) true) ∧
    Twitch.Command.fromStr "!classical off" =
      Except.ok (Twitch.Command.VoteSetting (.game_mode .Classical) false) :=
  ⟨rfl, rfl, rfl, rfl, rfl⟩

/-! ## Settings vote tracker (`src/engine/votes/settings.rs`) -/

/-- `GameModes` from `src/engine/votes/settings.rs`. -/
structure GameModes where
  bullet : Bool
  rapid : Bool
  classical : Bool
deriving DecidableEq, Repr

/-- `Settings` from `src/engine/votes/settings.rs`. -/
structure Settings where
  game_modes : GameModes
  bullet : Nat
  rapid : Nat
  classical : Nat
  total : Nat
deriving DecidableEq, Repr

/-- The settings `VoteTracker` from `src/engine/votes/settings.rs`: three
`HashSet<Username>`s, modelled as finite sets of usernames. The
`event_sender` field only emits `SettingsChanged` notifications and carries
no state of its own. -/
structure SettingsVoteTracker where
  bullet : Finset String
  rapid : Finset String
  classical : Finset String

/-- The inner `is_enabled(count, total)` of `VoteTracker::settings`. The
source computes `count as f64 / total as f64 >= 0.5` after an explicit
`total == 0` guard; for every cardinality the program can hold (far below
`2^53`, where `f64` division of naturals compared against `0.5` is exact in
this sense) the comparison coincides with `2 * count ≥ total`, which is the
form used here. -/
def is_enabled (count total : Nat) : Bool :=
  if total = 0 then false else decide (total ≤ 2 * count)

/-- `VoteTracker::settings` from `src/engine/votes/settings.rs`: the
denominator `total` is the cardinality of the union of the three sets (the
source inserts every member of each set into one `HashSet` called `all`). -/
def SettingsVoteTracker.settings (t : SettingsVoteTracker) : Settings :=
  let bullet := t.bullet.card
  let rapid := t.rapid.card
  let classical := t.classical.card
  let all := t.bullet ∪ t.rapid ∪ t.classical
  let total := all.card
  { game_modes :=
      { bullet := is_enabled bullet total
        rapid := is_enabled rapid total
        classical := is_enabled classical total }
    bullet, rapid, classical, total }

/-- The scenario state of C7: Alice voted bullet and rapid on, Bob rapid on,
Carol classical on. -/
def scenarioTracker : SettingsVoteTracker :=
  { bullet := {"Alice"}, rapid := {"Alice", "Bob"}, classical := {"Carol"} }

/-- C7: `settings()` reports a game mode as on exactly when the mode's user
set holds at least half of the union of the three sets and that union is
non-empty — a user voting for several modes counts once in the denominator,
because the denominator is the union's cardinality. In the scenario
{Alice: bullet and rapid, Bob: rapid, Carol: classical} the union has three
users, so bullet (1/3) is off, rapid (2/3) is on and classical (1/3) is
off. -/
theorem settings_majority_by_union :
    (∀ t : SettingsVoteTracker,
      (t.settings.game_modes.bullet = true ↔
        (t.bullet ∪ t.rapid ∪ t.classical).card ≠ 0 ∧
          (t.bullet ∪ t.rapid ∪ t.classical).card ≤ 2 * t.bullet.card) ∧
      (t.settings.game_modes.rapid = true ↔
        (t.bullet ∪ t.rapid ∪ t.classical).card ≠ 0 ∧
          (t.bullet ∪ t.rapid ∪ t.classical).card ≤ 2 * t.rapid.card) ∧
      (t.settings.game_modes.classical = true ↔
        (t.bullet ∪ t.rapid ∪ t.classical).card ≠ 0 ∧
          (t.bullet ∪ t.rapid ∪ t.classical).card ≤ 2 * t.classical.card) ∧
      t.settings.total = (t.bullet ∪ t.rapid ∪ t.classical).card) ∧
    scenarioTracker.settings.game_modes =
      { bullet := false, rapid := true, classical := false } ∧
    scenarioTracker.settings.total = 3 := by
  refine ⟨fun t => ?_, by decide, by decide⟩
  refine ⟨?_, ?_, ?_, rfl⟩ <;>
    · simp only [SettingsVoteTracker.settings, is_enabled]
      split <;> simp_all

/-! ## Per-game vote tracker (`src/engine/votes/game.rs`, `Delays` from
`src/stream/model.rs`) -/

/-- `Delays` from `src/stream/model.rs`: `current` and `max` are `u8` in the
source; the values the program produces stay at or below ten, so `Nat`
models them exactly. -/
structure Delays where
  current : Nat
  max : Nat
deriving DecidableEq, Repr

namespace Delays

/-- `Delays::new(max)` from `src/stream/model.rs`. -/
def new (max : Nat) : Delays :=
  { current := 0, max }

/-- `Delays::add_delay` from `src/stream/model.rs`: increment, then clamp at
`max`. -/
def add_delay (d : Delays) : Delays :=
  { d with current := min (d.current + 1) d.max }

/-- `Delays::can_delay` from `src/stream/model.rs`. -/
def can_delay (d : Delays) : Bool :=
  d.current < d.max

end Delays

/-- `Vote` from `src/engine/votes/game.rs`. `M` is the external
`chess::ChessMove` type. -/
inductive Vote (M : Type) where
  | Delay
  | Draw
  | Resign
  | Move (chess_move : M)
deriving DecidableEq, Repr

/-- The game `VoteTracker` from `src/engine/votes/game.rs`. `votes` is a
`HashMap<Username, Option<Vote>>`, modelled as an association list with
unique keys; `vote_timer` records whether a scheduled commit task is held
(the source's `Option<VoteTimer>` handle, whose `start` instant only feeds
the rendered countdown); the `event_sender` carries no state. -/
structure GameVoteTracker (M : Type) where
  enabled : Bool
  delays : Delays
  votes : List (String × Option (Vote M))
  vote_duration_secs : Nat
  vote_timer : Bool
deriving DecidableEq, Repr

/-- The `(max_delays, vote_duration)` table of `VoteTracker::new` from
`src/engine/votes/game.rs`. -/
def speed_vote_table (speed : Speed) : Nat × Nat :=
  match speed with
  | .UltraBullet => (3, 2)
  | .Bullet => (5, 5)
  | .Blitz => (6, 12)
  | .Rapid => (8, 36)
  | .Classical => (10, 72)
  | _ => (1, 1)

namespace GameVoteTracker

variable {M : Type} [DecidableEq M]

/-- `VoteTracker::new(speed, ..)` from `src/engine/votes/game.rs`. -/
def new (speed : Speed) : GameVoteTracker M :=
  { enabled := false
    delays := Delays.new (speed_vote_table speed).1
    votes := []
    vote_duration_secs := (speed_vote_table speed).2
    vote_timer := false }

/-- `HashMap::insert` on the vote map: overwrite the entry of the user, or
append a fresh one. -/
def votesInsert : List (String × Option (Vote M)) → String → Option (Vote M) →
    List (String × Option (Vote M))
  | [], user, v => [(user, v)]
  | (u, w) :: rest, user, v =>
    if u = user then (user, v) :: rest else (u, w) :: votesInsert rest user v

/-- `VoteTracker::add_vote` from `src/engine/votes/game.rs`: ignored unless
enabled, a `Delay` is ignored when `can_delay` fails, otherwise the user's
single vote is overwritten (and `GameVotesChanged` is emitted, which carries
no tracker state). -/
def add_vote (t : GameVoteTracker M) (user : String) (vote : Vote M) : GameVoteTracker M :=
  if t.enabled = false then t
  else if t.delays.can_delay = false ∧ vote = Vote.Delay then t
  else { t with votes := votesInsert t.votes user (some vote) }

/-- `VoteTracker::add_delay` from `src/engine/votes/game.rs`. -/
def add_delay (t : GameVoteTracker M) : GameVoteTracker M :=
  { t with delays := t.delays.add_delay }

/-- `VoteTracker::enable` from `src/engine/votes/game.rs`. -/
def enable (t : GameVoteTracker M) : GameVoteTracker M :=
  { t with enabled := true }

/-- `VoteTracker::disable` from `src/engine/votes/game.rs`. -/
def disable (t : GameVoteTracker M) : GameVoteTracker M :=
  { t with enabled := false }

/-- `VoteTracker::schedule_action_vote` from `src/engine/votes/game.rs`: any
previous commit task is aborted and a fresh one is stored (the spawned task
only sends events later, so the tracker state change is the stored
handle). -/
def schedule_action_vote (t : GameVoteTracker M) : GameVoteTracker M :=
  { t with vote_timer := true }

/-- `VoteTracker::reset_voting` from `src/engine/votes/game.rs`: clear the
votes and drop the timer handle, keep the delays. -/
def reset_voting (t : GameVoteTracker M) : GameVoteTracker M :=
  { t with votes := [], vote_timer := false }

/-- `VoteTracker::reset` from `src/engine/votes/game.rs`: fresh delays of the
same `max`, then `reset_voting`. -/
def reset (t : GameVoteTracker M) : GameVoteTracker M :=
  reset_voting { t with delays := Delays.new t.delays.max }

/-- One step of the `HashMap<Vote, u32>` accumulation of
`VoteTracker::get_top_vote`: `entry(vote).and_modify(+= 1).or_insert(0)` —
the first occurrence of a vote stores 0, every further one increments, so a
stored count is one below the number of holders (uniformly, leaving the
argmax unchanged). -/
def countsBump : List (Vote M × Nat) → Vote M → List (Vote M × Nat)
  | [], v => [(v, 0)]
  | (w, n) :: rest, v =>
    if w = v then (w, n + 1) :: rest else (w, n) :: countsBump rest v

/-- The `vote_counts` map of `VoteTracker::get_top_vote`, folded over the
values of the vote map (`None` values contribute nothing). -/
def vote_counts_from (counts : List (Vote M × Nat)) :
    List (String × Option (Vote M)) → List (Vote M × Nat)
  | [] => counts
  | (_, none) :: rest => vote_counts_from counts rest
  | (_, some v) :: rest => vote_counts_from (countsBump counts v) rest

/-- `max_by_key(|e| e.1)` over the counts: the last maximal element wins, as
in Rust's `Iterator::max_by_key`. -/
def maxByCount : List (Vote M × Nat) → Option (Vote M × Nat)
  | [] => none
  | p :: rest => some (rest.foldl (fun acc q => if acc.2 ≤ q.2 then q else acc) p)

/-- `VoteTracker::get_top_vote` from `src/engine/votes/game.rs`. -/
def get_top_vote (t : GameVoteTracker M) : Option (Vote M) :=
  (maxByCount (vote_counts_from [] t.votes)).map Prod.fst

/-- Number of users currently holding vote `v` in the vote map. -/
def countVote (votes : List (String × Option (Vote M))) (v : Vote M) : Nat :=
  (votes.filter (fun p => p.2 = some v)).length

end GameVoteTracker

/-- `Engine::make_move` from `src/engine/mod.rs`, restricted to its effect on
the vote tracker. The two external inputs are passed as parameters:
`fallback_move` is the uniformly random legal move the source draws when the
tally is empty (`none` when the game is unknown or has no legal move), and
`remote_ok` is whether the remote lichess call (`make_move`, `offer_draw`,
`resign`) returned `Ok`. -/
def engine_make_move {M : Type} [DecidableEq M] (t : GameVoteTracker M)
    (fallback_move : Option M) (remote_ok : Bool) : GameVoteTracker M :=
  match t.get_top_vote with
  | none =>
    match fallback_move with
    | some _ => if remote_ok then t.reset else t
    | none => t
  | some .Delay => ((t.add_delay).reset_voting).schedule_action_vote
  | some .Draw => if remote_ok then t.reset else t
  | some .Resign => if remote_ok then t.reset else t
  | some (.Move _) => if remote_ok then t.reset else t

/-- C6: when the `Move` action fires with a non-empty tally: a winning
`Delay` records one delay (clamped at the cap), clears the votes while
keeping the delay counter, and schedules another commit; a winning `Draw`,
`Resign` or `Move` clears both votes and delay counter when the remote call
succeeds, and leaves the tracker untouched when it fails. -/
theorem make_move_vote_outcomes {M : Type} [DecidableEq M] (t : GameVoteTracker M)
    (fb : Option M) (ok : Bool) (v : Vote M) (h : t.get_top_vote = some v) :
    (v = Vote.Delay →
      engine_make_move t fb ok = t.add_delay.reset_voting.schedule_action_vote ∧
      (engine_make_move t fb ok).votes = [] ∧
      (engine_make_move t fb ok).delays.current = min (t.delays.current + 1) t.delays.max ∧
      (engine_make_move t fb ok).delays.max = t.delays.max ∧
      (engine_make_move t fb ok).vote_timer = true) ∧
    (v ≠ Vote.Delay →
      (ok = true →
        (engine_make_move t fb ok).votes = [] ∧
        (engine_make_move t fb ok).delays.current = 0 ∧
        (engine_make_move t fb ok).delays.max = t.delays.max) ∧
      (ok = false → engine_make_move t fb ok = t)) := by
  constructor
  · rintro rfl
    simp [engine_make_move, h, GameVoteTracker.add_delay, GameVoteTracker.reset_voting,
      GameVoteTracker.schedule_action_vote, Delays.add_delay]
  · intro hne
    cases v with
    | Delay => exact absurd rfl hne
    | Draw =>
      exact ⟨fun hok => by simp [engine_make_move, h, hok, GameVoteTracker.reset,
          GameVoteTracker.reset_voting, Delays.new],
        fun hok => by simp [engine_make_move, h, hok]⟩
    | Resign =>
      exact ⟨fun hok => by simp [engine_make_move, h, hok, GameVoteTracker.reset,
          GameVoteTracker.reset_voting, Delays.new],
        fun hok => by simp [engine_make_move, h, hok]⟩
    | Move m =>
      exact ⟨fun hok => by simp [engine_make_move, h, hok, GameVoteTracker.reset,
          GameVoteTracker.reset_voting, Delays.new],
        fun hok => by simp [engine_make_move, h, hok]⟩

/-- A tracker whose only recorded vote is one `Draw` by user `"a"`, in a
blitz-speed window. -/
def drawTracker : GameVoteTracker Nat :=
  { enabled := true
    delays := { current := 2, max := 6 }
    votes := [("a", some Vote.Draw)]
    vote_duration_secs := 12
    vote_timer := true }

/-- Concrete instance of C6: with a single `Draw` vote on record and a
successful remote call, the commit clears the votes and the delay
counter. -/
theorem make_move_vote_outcomes_witness :
    (engine_make_move drawTracker none true).votes = [] ∧
    (engine_make_move drawTracker none true).delays.current = 0 :=
  ⟨((make_move_vote_outcomes drawTracker none true Vote.Draw rfl).2
      (by decide) |>.1 rfl).1,
    ((make_move_vote_outcomes drawTracker none true Vote.Draw rfl).2
      (by decide) |>.1 rfl).2.1⟩

/-- The states of the game vote tracker reachable by the operations the
engine invokes on it (`src/engine/votes/game.rs` and `Engine::make_move` of
`src/engine/mod.rs`), starting from `VoteTracker::new(speed)`. -/
inductive VoteReachable {M : Type} [DecidableEq M] (speed : Speed) :
    GameVoteTracker M → Prop where
  | init : VoteReachable speed (GameVoteTracker.new speed)
  | add_vote (t : GameVoteTracker M) (u : String) (v : Vote M) :
      VoteReachable speed t → VoteReachable speed (t.add_vote u v)
  | add_delay (t : GameVoteTracker M) :
      VoteReachable speed t → VoteReachable speed t.add_delay
  | enable (t : GameVoteTracker M) :
      VoteReachable speed t → VoteReachable speed t.enable
  | disable (t : GameVoteTracker M) :
      VoteReachable speed t → VoteReachable speed t.disable
  | schedule (t : GameVoteTracker M) :
      VoteReachable speed t → VoteReachable speed t.schedule_action_vote
  | reset (t : GameVoteTracker M) :
      VoteReachable speed t → VoteReachable speed t.reset
  | reset_voting (t : GameVoteTracker M) :
      VoteReachable speed t → VoteReachable speed t.reset_voting
  | make_move (t : GameVoteTracker M) (fb : Option M) (ok : Bool) :
      VoteReachable speed t → VoteReachable speed (engine_make_move t fb ok)

theorem add_vote_delays {M : Type} [DecidableEq M] (t : GameVoteTracker M)
    (u : String) (v : Vote M) : (t.add_vote u v).delays = t.delays := by
  unfold GameVoteTracker.add_vote
  split_ifs <;> rfl

theorem make_move_delay_bound {M : Type} [DecidableEq M] (t : GameVoteTracker M)
    (fb : Option M) (ok : Bool) (h : t.delays.current ≤ t.delays.max) :
    (engine_make_move t fb ok).delays.current ≤ (engine_make_move t fb ok).delays.max := by
  unfold engine_make_move
  cases htop : t.get_top_vote with
  | none =>
    cases fb <;> cases ok <;>
      simp [GameVoteTracker.reset, GameVoteTracker.reset_voting, Delays.new, h]
  | some v =>
    cases v <;> cases ok <;>
      simp [GameVoteTracker.reset, GameVoteTracker.reset_voting,
        GameVoteTracker.add_delay, GameVoteTracker.schedule_action_vote,
        Delays.new, Delays.add_delay, h]

/-- C10: in every reachable state of the game vote tracker the delay counter
stays at or below its cap — `add_delay` clamps at `max` and `reset` zeroes
the counter — and `add_vote` refuses a `Delay` vote whenever `can_delay`
fails (the counter has reached the cap), leaving the tracker unchanged. -/
theorem delay_cap_invariant {M : Type} [DecidableEq M] (speed : Speed)
    (t : GameVoteTracker M) :
    (VoteReachable speed t → t.delays.current ≤ t.delays.max) ∧
    (∀ u : String, t.delays.can_delay = false → t.add_vote u Vote.Delay = t) := by
  constructor
  · intro h
    induction h with
    | init => simp [GameVoteTracker.new, Delays.new]
    | add_vote t u v _ ih => rw [add_vote_delays]; exact ih
    | add_delay t _ _ =>
      simp [GameVoteTracker.add_delay, Delays.add_delay]
    | enable t _ ih => exact ih
    | disable t _ ih => exact ih
    | schedule t _ ih => exact ih
    | reset t _ _ =>
      simp [GameVoteTracker.reset, GameVoteTracker.reset_voting, Delays.new]
    | reset_voting t _ ih => exact ih
    | make_move t fb ok _ ih => exact make_move_delay_bound t fb ok ih
  · intro u h
    unfold GameVoteTracker.add_vote
    split_ifs with h1 h2
    · rfl
    · rfl
    · exact absurd ⟨h, rfl⟩ h2

/-- A blitz tracker whose delay counter has reached its cap of six. -/
def maxedTracker : GameVoteTracker Nat :=
  { enabled := true
    delays := { current := 6, max := 6 }
    votes := []
    vote_duration_secs := 12
    vote_timer := false }

/-- Concrete instance of C10: the freshly built blitz tracker satisfies the
delay bound, and a tracker at the cap refuses a further `Delay` vote. -/
theorem delay_cap_invariant_witness :
    ((GameVoteTracker.new Speed.Blitz : GameVoteTracker Nat).delays.current ≤
      (GameVoteTracker.new Speed.Blitz : GameVoteTracker Nat).delays.max) ∧
    maxedTracker.add_vote "alice" Vote.Delay = maxedTracker :=
  ⟨(delay_cap_invariant Speed.Blitz _).1 VoteReachable.init,
    (delay_cap_invariant Speed.Blitz maxedTracker).2 "alice" (by decide)⟩

namespace GameVoteTracker

variable {M : Type} [DecidableEq M]

/-- First-occurrence lookup in the accumulated counts list. -/
def lookupCount : List (Vote M × Nat) → Vote M → Option Nat
  | [], _ => none
  | (w, n) :: rest, v => if w = v then some n else lookupCount rest v

/-- The stored count after one bump: 0 on first occurrence, else one more. -/
def bumpVal : Option Nat → Nat
  | none => 0
  | some n => n + 1

/-- Combining a stored count with `k` further occurrences. -/
def mergeCount : Option Nat → Nat → Option Nat
  | none, 0 => none
  | none, k + 1 => some k
  | some n, k => some (n + k)

theorem mergeCount_zero (o : Option Nat) : mergeCount o 0 = o := by
  cases o <;> rfl

theorem mergeCount_bump (o : Option Nat) (k : Nat) :
    mergeCount (some (bumpVal o)) k = mergeCount o (k + 1) := by
  cases o <;> simp [mergeCount, bumpVal] <;> omega

theorem countsBump_ne_nil (cs : List (Vote M × Nat)) (v : Vote M) :
    countsBump cs v ≠ [] := by
  cases cs with
  | nil => simp [countsBump]
  | cons p rest =>
    obtain ⟨w, n⟩ := p
    simp only [countsBump]
    split <;> simp

theorem vote_counts_from_eq_nil_iff (votes : List (String × Option (Vote M))) :
    ∀ cs : List (Vote M × Nat),
      vote_counts_from cs votes = [] ↔ (cs = [] ∧ ∀ p ∈ votes, p.2 = none) := by
  induction votes with
  | nil => intro cs; simp [vote_counts_from]
  | cons p rest ih =>
    intro cs
    obtain ⟨u, ov⟩ := p
    cases ov with
    | none => simp [vote_counts_from, ih cs, List.forall_mem_cons]
    | some v =>
      simp only [vote_counts_from]
      rw [ih (countsBump cs v)]
      constructor
      · rintro ⟨hnil, -⟩
        exact absurd hnil (countsBump_ne_nil cs v)
      · rintro ⟨-, hall⟩
        have := hall (u, some v) (by simp)
        simp at this

theorem lookupCount_countsBump_same (cs : List (Vote M × Nat)) (v : Vote M) :
    lookupCount (countsBump cs v) v = some (bumpVal (lookupCount cs v)) := by
  induction cs with
  | nil => simp [countsBump, lookupCount, bumpVal]
  | cons p rest ih =>
    obtain ⟨w, n⟩ := p
    by_cases hw : w = v
    · simp only [countsBump, lookupCount]
      rw [if_pos hw]
      simp only [lookupCount]
      rw [if_pos hw, if_pos hw]
      rfl
    · simp only [countsBump, lookupCount]
      rw [if_neg hw]
      simp only [lookupCount]
      rw [if_neg hw, if_neg hw]
      exact ih

theorem lookupCount_countsBump_other (cs : List (Vote M × Nat)) (v w : Vote M)
    (h : w ≠ v) : lookupCount (countsBump cs v) w = lookupCount cs w := by
  induction cs with
  | nil =>
    simp only [countsBump, lookupCount]
    rw [if_neg (fun hh => h (hh.symm))]
  | cons p rest ih =>
    obtain ⟨x, n⟩ := p
    by_cases hx : x = v
    · have hxw : ¬ x = w := by rw [hx]; exact fun hh => h hh.symm
      simp only [countsBump]
      rw [if_pos hx]
      simp only [lookupCount]
      rw [if_neg hxw, if_neg hxw]
    · simp only [countsBump]
      rw [if_neg hx]
      simp only [lookupCount]
      by_cases hxw : x = w
      · rw [if_pos hxw, if_pos hxw]
      · rw [if_neg hxw, if_neg hxw]
        exact ih

theorem countVote_cons_none (u : String) (rest : List (String × Option (Vote M)))
    (v : Vote M) : countVote ((u, none) :: rest) v = countVote rest v := by
  simp [countVote]

theorem countVote_cons_same (u : String) (rest : List (String × Option (Vote M)))
    (v : Vote M) : countVote ((u, some v) :: rest) v = countVote rest v + 1 := by
  simp [countVote]

theorem countVote_cons_other (u : String) (rest : List (String × Option (Vote M)))
    (w v : Vote M) (h : w ≠ v) :
    countVote ((u, some w) :: rest) v = countVote rest v := by
  simp [countVote, h]

theorem lookupCount_vote_counts_from (votes : List (String × Option (Vote M))) :
    ∀ (cs : List (Vote M × Nat)) (v : Vote M),
      lookupCount (vote_counts_from cs votes) v =
        mergeCount (lookupCount cs v) (countVote votes v) := by
  induction votes with
  | nil =>
    intro cs v
    have : countVote ([] : List (String × Option (Vote M))) v = 0 := rfl
    rw [this, mergeCount_zero]
    rfl
  | cons p rest ih =>
    intro cs v
    obtain ⟨u, ov⟩ := p
    cases ov with
    | none =>
      simp only [vote_counts_from]
      rw [ih cs v, countVote_cons_none]
    | some w =>
      by_cases hw : w = v
      · subst hw
        simp only [vote_counts_from]
        rw [ih (countsBump cs w) w, countVote_cons_same,
          lookupCount_countsBump_same, mergeCount_bump]
      · simp only [vote_counts_from]
        rw [ih (countsBump cs w) v, countVote_cons_other u rest w v hw,
          lookupCount_countsBump_other cs w v (fun hh => hw hh.symm)]

/-- The keys of the accumulated counts list. -/
def countKeys (cs : List (Vote M × Nat)) : List (Vote M) :=
  cs.map Prod.fst

theorem mem_countKeys_countsBump (cs : List (Vote M × Nat)) (v x : Vote M) :
    x ∈ countKeys (countsBump cs v) ↔ x ∈ countKeys cs ∨ x = v := by
  induction cs with
  | nil => simp [countsBump, countKeys]
  | cons p rest ih =>
    obtain ⟨w, n⟩ := p
    by_cases hw : w = v
    · subst hw
      simp only [countsBump, if_true]
      simp only [countKeys, List.map_cons, List.mem_cons]
      tauto
    · simp only [countsBump]
      rw [if_neg hw]
      simp only [countKeys, List.map_cons, List.mem_cons]
      rw [show (countsBump rest v).map Prod.fst = countKeys (countsBump rest v) from rfl]
      rw [ih]
      tauto

theorem keysNodup_countsBump (cs : List (Vote M × Nat)) (v : Vote M)
    (h : (countKeys cs).Nodup) : (countKeys (countsBump cs v)).Nodup := by
  induction cs with
  | nil => simp [countsBump, countKeys]
  | cons p rest ih =>
    obtain ⟨w, n⟩ := p
    simp only [countKeys, List.map_cons, List.nodup_cons] at h
    by_cases hw : w = v
    · subst hw
      simp only [countsBump, if_true]
      simp only [countKeys, List.map_cons, List.nodup_cons]
      exact h
    · simp only [countsBump]
      rw [if_neg hw]
      simp only [countKeys, List.map_cons, List.nodup_cons]
      constructor
      · intro hmem
        rcases (mem_countKeys_countsBump rest v w).mp hmem with hh | hh
        · exact h.1 hh
        · exact hw hh
      · exact ih h.2

theorem keysNodup_vote_counts_from (votes : List (String × Option (Vote M))) :
    ∀ cs : List (Vote M × Nat),
      (countKeys cs).Nodup → (countKeys (vote_counts_from cs votes)).Nodup := by
  induction votes with
  | nil => intro cs h; exact h
  | cons p rest ih =>
    intro cs h
    obtain ⟨u, ov⟩ := p
    cases ov with
    | none => exact ih cs h
    | some v => exact ih (countsBump cs v) (keysNodup_countsBump cs v h)

theorem lookupCount_mem (cs : List (Vote M × Nat)) (v : Vote M) (n : Nat) :
    lookupCount cs v = some n → (v, n) ∈ cs := by
  induction cs with
  | nil => intro h; simp [lookupCount] at h
  | cons p rest ih =>
    intro h
    obtain ⟨w, k⟩ := p
    simp only [lookupCount] at h
    by_cases hw : w = v
    · rw [if_pos hw] at h
      have hk : k = n := by simpa using h
      rw [← hw, ← hk]
      simp
    · rw [if_neg hw] at h
      simp [ih h]

theorem mem_lookupCount (cs : List (Vote M × Nat)) (v : Vote M) (n : Nat) :
    (countKeys cs).Nodup → (v, n) ∈ cs → lookupCount cs v = some n := by
  induction cs with
  | nil => intro _ h; simp at h
  | cons p rest ih =>
    intro hnd h
    obtain ⟨w, k⟩ := p
    simp only [countKeys, List.map_cons, List.nodup_cons] at hnd
    simp only [lookupCount]
    rcases List.mem_cons.mp h with hh | hh
    · have hv : w = v := (congrArg Prod.fst hh).symm
      have hn : k = n := (congrArg Prod.snd hh).symm
      rw [if_pos hv, hn]
    · by_cases hw : w = v
      · exfalso
        apply hnd.1
        rw [hw]
        exact List.mem_map_of_mem Prod.fst hh
      · rw [if_neg hw]
        exact ih hnd.2 hh

theorem maxByCount_eq_none (cs : List (Vote M × Nat)) :
    maxByCount cs = none ↔ cs = [] := by
  cases cs <;> simp [maxByCount]

theorem foldl_pickMax_mem (p : Vote M × Nat) (rest : List (Vote M × Nat)) :
    rest.foldl (fun acc q => if acc.2 ≤ q.2 then q else acc) p ∈ p :: rest := by
  induction rest generalizing p with
  | nil => simp
  | cons r rest ih =>
    simp only [List.foldl_cons]
    rcases List.mem_cons.mp (ih (if p.2 ≤ r.2 then r else p)) with h | h
    · rw [h]
      split <;> simp
    · simp [h]

theorem foldl_pickMax_ge (p : Vote M × Nat) (rest : List (Vote M × Nat)) :
    ∀ q ∈ p :: rest,
      q.2 ≤ (rest.foldl (fun acc q => if acc.2 ≤ q.2 then q else acc) p).2 := by
  induction rest generalizing p with
  | nil =>
    intro q hq
    simp only [List.mem_singleton] at hq
    simp [hq]
  | cons r rest ih =>
    intro q hq
    simp only [List.foldl_cons]
    have hps : p.2 ≤ (if p.2 ≤ r.2 then r else p).2 := by
      split
      · assumption
      · exact le_refl _
    have hrs : r.2 ≤ (if p.2 ≤ r.2 then r else p).2 := by
      split
      · exact le_refl _
      · omega
    rcases List.mem_cons.mp hq with h | h
    · rw [h]
      exact le_trans hps (ih _ _ (by simp))
    · rcases List.mem_cons.mp h with h2 | h2
      · rw [h2]
        exact le_trans hrs (ih _ _ (by simp))
      · exact ih _ q (by simp [h2])

theorem maxByCount_spec (cs : List (Vote M × Nat)) (v : Vote M) (n : Nat)
    (h : maxByCount cs = some (v, n)) :
    (v, n) ∈ cs ∧ ∀ w k, (w, k) ∈ cs → k ≤ n := by
  cases cs with
  | nil => simp [maxByCount] at h
  | cons p rest =>
    simp only [maxByCount, Option.some.injEq] at h
    constructor
    · have hm := foldl_pickMax_mem p rest
      rw [h] at hm
      exact hm
    · intro w k hwk
      have hg := foldl_pickMax_ge p rest (w, k) hwk
      rw [h] at hg
      exact hg

end GameVoteTracker

/-- C9: `get_top_vote` returns `None` exactly when no vote is recorded in the
vote map, and any returned vote is held by at least as many users as every
other vote. (The accumulation stores each count one below the number of
holders — `or_insert(0)` then `+= 1` — but the shift is uniform, so the
argmax is unchanged.) -/
theorem get_top_vote_spec {M : Type} [DecidableEq M] (t : GameVoteTracker M) :
    (t.get_top_vote = none ↔ ∀ p ∈ t.votes, p.2 = none) ∧
    (∀ v, t.get_top_vote = some v →
      ∀ w, GameVoteTracker.countVote t.votes w ≤ GameVoteTracker.countVote t.votes v) := by
  constructor
  · unfold GameVoteTracker.get_top_vote
    rw [Option.map_eq_none', GameVoteTracker.maxByCount_eq_none,
      GameVoteTracker.vote_counts_from_eq_nil_iff]
    simp
  · intro v hv w
    unfold GameVoteTracker.get_top_vote at hv
    rcases Option.map_eq_some'.mp hv with ⟨⟨v', n⟩, hmax, hfst⟩
    have hv' : v' = v := hfst
    subst hv'
    have hspec := GameVoteTracker.maxByCount_spec _ v' n hmax
    have hnd : (GameVoteTracker.countKeys
        (GameVoteTracker.vote_counts_from [] t.votes)).Nodup :=
      GameVoteTracker.keysNodup_vote_counts_from t.votes []
        (by simp [GameVoteTracker.countKeys])
    have hlv : GameVoteTracker.lookupCount
        (GameVoteTracker.vote_counts_from [] t.votes) v' = some n :=
      GameVoteTracker.mem_lookupCount _ _ _ hnd hspec.1
    have hinv := GameVoteTracker.lookupCount_vote_counts_from t.votes [] v'
    have hcv : GameVoteTracker.countVote t.votes v' = n + 1 := by
      rw [hinv] at hlv
      rcases hc : GameVoteTracker.countVote t.votes v' with _ | k
      · rw [hc] at hlv
        simp [GameVoteTracker.lookupCount, GameVoteTracker.mergeCount] at hlv
      · rw [hc] at hlv
        have : k = n := by
          simpa [GameVoteTracker.lookupCount, GameVoteTracker.mergeCount] using hlv
        omega
    rcases hw0 : GameVoteTracker.countVote t.votes w with _ | k
    · omega
    · have hlw : GameVoteTracker.lookupCount
          (GameVoteTracker.vote_counts_from [] t.votes) w = some k := by
        rw [GameVoteTracker.lookupCount_vote_counts_from t.votes [] w, hw0]
        rfl
      have hmem := GameVoteTracker.lookupCount_mem _ _ _ hlw
      have hle := hspec.2 w k hmem
      omega

/-- A tracker with two `Resign` votes and one `Delay` vote on record. -/
def resignTracker : GameVoteTracker Nat :=
  { enabled := true
    delays := { current := 0, max := 6 }
    votes := [("a", some Vote.Resign), ("b", some Vote.Delay), ("c", some Vote.Resign)]
    vote_duration_secs := 12
    vote_timer := true }

/-- Concrete instance of C9: with two `Resign` votes against one `Delay`
vote, the top vote is held at least as often as `Delay`. -/
theorem get_top_vote_spec_witness :
    GameVoteTracker.countVote resignTracker.votes Vote.Delay ≤
      GameVoteTracker.countVote resignTracker.votes Vote.Resign :=
  (get_top_vote_spec resignTracker).2 Vote.Resign rfl Vote.Delay

/-! ## Internal events (`src/engine/events/internal.rs`, `src/lichess/action.rs`,
`src/stream/audio.rs`) -/

/-- `Clip` from `src/stream/audio.rs`. -/
inductive Clip where
  | Capture
  | Draw
  | Lobby
  | Loss
  | Move
  | Start
  | Win
deriving DecidableEq, Repr

/-- `AccountAction` from `src/lichess/action.rs`. -/
inductive AccountAction where
  | AcceptChallenge (challenge_id : String)
  | CancelChallenge (challenge_id : String)
  | DeclineChallenge (challenge_id : String) (reason : String)
  | ChallengeRandomBot
deriving DecidableEq, Repr

/-- `GameAction` from `src/lichess/action.rs`. -/
inductive GameAction where
  | Abort
  | Move
  | OfferDraw
  | Resign
deriving DecidableEq, Repr

/-- `Action` from `src/lichess/action.rs`. -/
inductive LichessAction where
  | Account (action : AccountAction)
  | Game (game_id : String) (action : GameAction)
deriving DecidableEq, Repr

/-- `GameNotification` from `src/engine/events/internal.rs`. -/
inductive GameNotification where
  | NewCurrentGame
  | GameStarted (game_id : String)
  | GameAbortable (game_id : String)
  | GameFinished
  | OurTurn (game_id : String)
  | TheirTurn (game_id : String)
  | PlayerMoved (game_id : String) (was_us : Bool)
deriving DecidableEq, Repr

/-- `Notification` from `src/engine/events/internal.rs` (the `ChatCommand`
payload is flattened to its two strings). -/
inductive Notification where
  | ChatCommand (username : String) (command : String)
  | VotingFinished
  | OutboundChallengeNullified
  | GameVotesChanged
  | SettingsChanged
  | OpponentSearchStarted
  | Game (notification : GameNotification)
deriving DecidableEq, Repr

/-- `Action` from `src/engine/events/internal.rs` (the `Twitch` payload is a
unit: the engine ignores it). -/
inductive Action where
  | Lichess (action : LichessAction)
  | Twitch
  | PlayClip (clip : Clip)
  | FindNewGame
  | SwitchGame (game_id : String)
  | Shutdown
deriving DecidableEq, Repr

/-- `Event` from `src/engine/events/internal.rs`. Operations of the game
manager return the list of events they send, in sending order. -/
inductive Event where
  | Action (action : Action)
  | Notification (notification : Notification)
deriving DecidableEq, Repr

/-! ## The chess library interface and the game manager (`src/lichess/game.rs`) -/

/-- Interface of the external `chess` crate as `src/lichess/game.rs` uses it
(the spec places the chess rules library out of scope). `B` is
`chess::Board`, `Mv` is `chess::ChessMove`. `from_fen` models
`Board::from_str`, `move_from_uci` models `ChessMove::from_str`, `make_move`
models `Board::make_move` into a fresh board, `is_ongoing` models the check
`matches!(board.status(), BoardStatus::Ongoing)`, `side_to_move` models
`Board::side_to_move`, and `dest_occupied board mv` models
`board.piece_on(mv.get_dest()).is_some()`. -/
structure ChessApi (B Mv : Type) where
  default_board : B
  from_fen : String → Option B
  move_from_uci : String → Option Mv
  make_move : B → Mv → B
  is_ongoing : B → Bool
  side_to_move : B → Color
  dest_occupied : B → Mv → Bool

/-- `ClockSettings` from `src/stream/model.rs`. -/
structure ClockSettings where
  limit : Nat
  increment : Nat
deriving DecidableEq, Repr

/-- `Player` from `src/stream/model.rs`. -/
structure Player where
  name : String
  color : Color
  rating : Option Nat
  timer : Timer
deriving DecidableEq, Repr

/-- `Game` from `src/lichess/game.rs`. `timestamp` is the creation
`Instant`, passed in by the caller as a clock value. -/
structure Game (B Mv : Type) where
  game_id : String
  speed : Speed
  timestamp : Nat
  clock_settings : Option ClockSettings
  board : B
  move_history : List String
  last_move : Option Mv
  is_our_turn : Bool
  us : Player
  opponent : Player
  timers_started : Bool
  finished : Bool
deriving DecidableEq, Repr

/-- `lichess_api::model::Color` of a game-start payload. -/
inductive ApiColor where
  | White
  | Black
  | Random
deriving DecidableEq, Repr

/-- The opponent record of `lichess_api`'s `GameEventInfo`. -/
structure OpponentInfo where
  id : Option String
  username : String
  rating : Option Nat
deriving DecidableEq, Repr

/-- The fields of `lichess_api`'s `GameEventInfo` that
`src/lichess/game.rs` reads. -/
structure GameEventInfo where
  game_id : String
  color : ApiColor
  is_my_turn : Bool
  last_move : String
  fen : String
  seconds_left : Option Nat
  speed : Speed
  opponent : OpponentInfo
deriving DecidableEq, Repr

/-- A player record of `lichess_api`'s `GameFull`. -/
structure GamePlayerInfo where
  id : String
  name : String
  rating : Option Nat
deriving DecidableEq, Repr

/-- The clock record of `lichess_api`'s `GameFull` (milliseconds). -/
structure GameClock where
  initial : Nat
  increment : Nat
deriving DecidableEq, Repr

/-- `lichess_api`'s `GameState`: the authoritative server update. -/
structure GameState where
  moves : String
  wtime : Nat
  btime : Nat
  winc : Nat
  binc : Nat
  status : String
  winner : Option String
deriving DecidableEq, Repr

/-- `lichess_api`'s `GameFull`: the authoritative full-game payload. -/
structure GameFull where
  id : String
  speed : Speed
  initial_fen : Option String
  clock : Option GameClock
  white : GamePlayerInfo
  black : GamePlayerInfo
  state : Option GameState
deriving DecidableEq, Repr

/-- First-occurrence lookup in an association list, modelling
`HashMap::get`. -/
def alLookup {α : Type} : List (String × α) → String → Option α
  | [], _ => none
  | (k, v) :: rest, key => if k = key then some v else alLookup rest key

/-- `HashMap::insert`: the updated list and the evicted previous value. -/
def alInsert {α : Type} : List (String × α) → String → α → List (String × α) × Option α
  | [], key, v => ([(key, v)], none)
  | (k, w) :: rest, key, v =>
    if k = key then ((key, v) :: rest, some w)
    else
      let r := alInsert rest key v
      ((k, w) :: r.1, r.2)

/-- `HashMap` mutation through `get_mut` (or an insert whose evicted value is
dropped). -/
def alUpdate {α : Type} (l : List (String × α)) (key : String) (v : α) : List (String × α) :=
  (alInsert l key v).1

/-- `HashMap::remove` (association lists built by `alInsert` have unique
keys, so removing the first occurrence is removal). -/
def alRemove {α : Type} : List (String × α) → String → List (String × α)
  | [], _ => []
  | (k, w) :: rest, key => if k = key then rest else (k, w) :: alRemove rest key

/-- `GameManager` state from `src/lichess/game.rs`: the `games` map, the
optional current game id and the archived last finished game. The
`event_sender` carries no state; operations return the events they send. -/
structure GameManager (B Mv : Type) where
  our_id : String
  games : List (String × Game B Mv)
  last_finished_game : Option (Game B Mv)
  current_game_id : Option String
deriving DecidableEq, Repr

/-- `GameManager::new` from `src/lichess/game.rs`. -/
def GameManager.new {B Mv : Type} (our_id : String) : GameManager B Mv :=
  { our_id, games := [], last_finished_game := none, current_game_id := none }

/-- Splitting a character list at every single space, modelling Rust's
`str::split(" ")`: the empty string yields `[""]`, and adjacent or trailing
spaces yield empty pieces. -/
def splitOnSpace : List Char → List (List Char)
  | [] => [[]]
  | c :: rest =>
    if c = ' ' then [] :: splitOnSpace rest
    else
      match splitOnSpace rest with
      | [] => [[c]]
      | w :: ws => (c :: w) :: ws

/-- `moves.split(" ")` over a string. -/
def splitSpace (s : String) : List String :=
  (splitOnSpace s.toList).map List.asString

section GameOps

variable {B Mv : Type} [DecidableEq B] [DecidableEq Mv]

/-- The loop body of `board_from_moves` from `src/lichess/game.rs`, with the
running board made explicit: empty strings are skipped, a move is applied
only while the position is ongoing and the string parses, and a position
that is no longer ongoing with moves left aborts the replay. -/
def board_from_moves_go (C : ChessApi B Mv) : B → List String → Option B
  | board, [] => some board
  | board, game_move :: rest =>
    if game_move = "" then board_from_moves_go C board rest
    else if C.is_ongoing board then
      match C.move_from_uci game_move with
      | some chess_move => board_from_moves_go C (C.make_move board chess_move) rest
      | none => board_from_moves_go C board rest
    else none

/-- `board_from_moves` from `src/lichess/game.rs`: replay the move list from
the default (standard starting) board. -/
def board_from_moves (C : ChessApi B Mv) (moves : List String) : Option B :=
  board_from_moves_go C C.default_board moves

/-- `board_from_api_fen` from `src/lichess/game.rs`: `"startpos"` and an
absent FEN give the default board; a parse failure falls back to the
default board (`unwrap_or_default`). -/
def board_from_api_fen (C : ChessApi B Mv) (fen : Option String) : B :=
  match fen with
  | some fen => if fen = "startpos" then C.default_board else (C.from_fen fen).getD C.default_board
  | none => C.default_board

/-- `color_from_api_color` from `src/lichess/game.rs`. -/
def color_from_api_color (color : ApiColor) : Option Color :=
  match color with
  | .Black => some Color.Black
  | .White => some Color.White
  | .Random => none

/-- `color_from_game` from `src/lichess/game.rs`. -/
def color_from_game (game : GameFull) (our_id : String) : Option Color :=
  if game.white.id = our_id then some Color.White
  else if game.black.id = our_id then some Color.Black
  else none

/-- `Game::from_game_start` from `src/lichess/game.rs`. The source calls
`Instant::now()`, passed here as `now`. The source's two `unwrap`s (the api
color and the FEN parse) are modelled by `none`: a panic aborts the process,
and no claim reaches those states. -/
def Game.from_game_start (C : ChessApi B Mv) (now : Nat) (game : GameEventInfo) :
    Option (Game B Mv) :=
  match color_from_api_color game.color, C.from_fen game.fen with
  | some our_color, some board =>
    let clock_settings := game.seconds_left.map
      (fun seconds => { limit := seconds / 60, increment := 0 : ClockSettings })
    let timer := Timer.new ((game.seconds_left.getD 0) * 1000)
    let us : Player := { name := "Twitch", color := our_color, rating := none, timer }
    let opponent_name := (game.opponent.id).getD game.opponent.username
    let opponent : Player :=
      { name := opponent_name, color := us.color.other, rating := game.opponent.rating,
        timer := us.timer }
    let last_move := if game.last_move ≠ "" then C.move_from_uci game.last_move else none
    some { game_id := game.game_id, speed := game.speed, timestamp := now, clock_settings,
           board, move_history := [], last_move, is_our_turn := game.is_my_turn, us,
           opponent, timers_started := false, finished := false }
  | _, _ => none

/-- `Game::from_game_full` from `src/lichess/game.rs`. `now` models
`Instant::now()`; the `unwrap` of `color_from_game` (our id matches neither
player) is modelled by `none`. -/
def Game.from_game_full (C : ChessApi B Mv) (now : Nat) (our_id : String) (game : GameFull) :
    Option (Game B Mv) :=
  match color_from_game game our_id with
  | none => none
  | some our_color =>
    let board0 := board_from_api_fen C game.initial_fen
    let timer := Timer.new ((game.clock.map (fun c => c.initial)).getD 0)
    let us0 : Player :=
      if our_color = Color.Black then
        { name := "Twitch", color := our_color, rating := game.black.rating, timer }
      else
        { name := "Twitch", color := our_color, rating := game.white.rating, timer }
    let opponent0 : Player :=
      if our_color = Color.Black then
        { name := game.white.name, color := our_color.other, rating := game.white.rating, timer }
      else
        { name := game.black.name, color := our_color.other, rating := game.black.rating, timer }
    let clock_settings := game.clock.map
      (fun c => { limit := c.initial / 60000, increment := c.increment / 1000 : ClockSettings })
    match game.state with
    | some game_state =>
      let us :=
        if our_color = Color.Black then { us0 with timer := Timer.new game_state.btime }
        else { us0 with timer := Timer.new game_state.wtime }
      let opponent :=
        if our_color = Color.Black then { opponent0 with timer := Timer.new game_state.wtime }
        else { opponent0 with timer := Timer.new game_state.btime }
      let moves := splitSpace game_state.moves
      let last_move := moves.getLast?.bind C.move_from_uci
      let board := (board_from_moves C moves).getD board0
      some { game_id := game.id, speed := game.speed, timestamp := now, clock_settings,
             board, move_history := moves, last_move,
             is_our_turn := decide (our_color = C.side_to_move board), us, opponent,
             finished := false, timers_started := false }
    | none =>
      some { game_id := game.id, speed := game.speed, timestamp := now, clock_settings,
             board := board0, move_history := [], last_move := none,
             is_our_turn := decide (our_color = C.side_to_move board0), us := us0,
             opponent := opponent0, finished := false, timers_started := false }

/-- `Game::process_game_info` from `src/lichess/game.rs`: refresh clock
settings and opponent metadata when absent, adopt the turn bit. -/
def Game.process_game_info (game : Game B Mv) (info : GameEventInfo) : Game B Mv :=
  let clock_settings :=
    if game.clock_settings.isNone then
      info.seconds_left.map (fun seconds => { limit := seconds / 60, increment := 0 : ClockSettings })
    else game.clock_settings
  let opponent :=
    { game.opponent with
        name := (info.opponent.id).getD info.opponent.username
        rating := if game.opponent.rating.isNone then info.opponent.rating
                  else game.opponent.rating }
  { game with clock_settings, opponent, is_our_turn := info.is_my_turn }

/-- `Game::process_game_state` from `src/lichess/game.rs`: move history,
last move and the `timers_started` bit are updated first; when the replay of
the move list fails the previous board is kept and the method returns early
(before the timers, the increment and the finished check). -/
def Game.process_game_state (g : Game B Mv) (C : ChessApi B Mv) (game : GameState) :
    Game B Mv :=
  let moves := splitSpace game.moves
  let g := { g with
      move_history := moves
      last_move := moves.getLast?.bind C.move_from_uci
      timers_started := moves.length ≥ 2 }
  match board_from_moves C moves with
  | none => g
  | some board =>
    let us :=
      if g.us.color = Color.Black then { g.us with timer := Timer.new game.btime }
      else { g.us with timer := Timer.new game.wtime }
    let opponent :=
      if g.us.color = Color.Black then { g.opponent with timer := Timer.new game.wtime }
      else { g.opponent with timer := Timer.new game.btime }
    let clock_settings := g.clock_settings.map
      (fun cs => { cs with increment := game.binc / 10000 })
    let finished := if game.status ≠ "started" ∨ game.winner.isSome then true else g.finished
    let is_our_turn := decide (g.us.color = C.side_to_move board)
    { g with board := board, is_our_turn := is_our_turn, us := us, opponent := opponent, clock_settings := clock_settings, finished := finished }

namespace GameManager

/-- `GameManager::game` from `src/lichess/game.rs`. -/
def game (mgr : GameManager B Mv) (game_id : String) : Option (Game B Mv) :=
  alLookup mgr.games game_id

/-- `GameManager::current_game` from `src/lichess/game.rs`: a finished
current game is removed from the map on the way (the method mutates the
manager), and the lookup result after the removal is returned. -/
def current_game (mgr : GameManager B Mv) : Option (Game B Mv) × GameManager B Mv :=
  match mgr.current_game_id with
  | none => (none, mgr)
  | some current_game_id =>
    let should_remove :=
      match alLookup mgr.games current_game_id with
      | some game => game.finished
      | none => false
    let mgr :=
      if should_remove then { mgr with games := alRemove mgr.games current_game_id } else mgr
    (alLookup mgr.games current_game_id, mgr)

/-- `GameManager::switch_game` from `src/lichess/game.rs`. -/
def switch_game (mgr : GameManager B Mv) (game_id : String) :
    GameManager B Mv × List Event :=
  match alLookup mgr.games game_id with
  | some game =>
    if game.finished then
      let current_game_id :=
        match mgr.current_game_id with
        | some current => if current = game_id then none else some current
        | none => none
      ({ mgr with current_game_id, games := alRemove mgr.games game_id },
        [Event.Action Action.FindNewGame])
    else
      ({ mgr with current_game_id := some game_id },
        [Event.Notification (Notification.Game GameNotification.NewCurrentGame)])
  | none => (mgr, [])

/-- `GameManager::process_game_start` from `src/lichess/game.rs`: a set
current game short-circuits; otherwise the fresh game is inserted — evicting
any previous entry of the same id, in which case the method logs and returns
without the `GameStarted` notification. -/
def process_game_start (mgr : GameManager B Mv) (C : ChessApi B Mv) (now : Nat)
    (game_info : GameEventInfo) : Option (GameManager B Mv × List Event) :=
  if mgr.current_game_id.isSome then some (mgr, [])
  else
    match Game.from_game_start C now game_info with
    | none => none
    | some game =>
      let r := alInsert mgr.games game_info.game_id game
      match r.2 with
      | some _ => some ({ mgr with games := r.1 }, [])
      | none =>
        some ({ mgr with games := r.1 },
          [Event.Notification (Notification.Game
            (GameNotification.GameStarted game_info.game_id))])

/-- `GameManager::process_game_finish` from `src/lichess/game.rs`: mutate
the recorded game in place and set `finished`; the entry is not removed and
`current_game_id` is not touched (the removal code is commented out in the
source). -/
def process_game_finish (mgr : GameManager B Mv) (game_info : GameEventInfo) :
    GameManager B Mv :=
  match alLookup mgr.games game_info.game_id with
  | some game =>
    let finished_game := { game.process_game_info game_info with finished := true }
    { mgr with games := alUpdate mgr.games game_info.game_id finished_game }
  | none => mgr

/-- `GameManager::process_game_full` from `src/lichess/game.rs`:
authoritative overwrite of the recorded game; a finished replacement clears
a matching `current_game_id` (the source compares against
`current_game_id.unwrap_or("")`, equivalent since clearing an absent id is a
no-op), otherwise a turn notification is emitted. -/
def process_game_full (mgr : GameManager B Mv) (C : ChessApi B Mv) (now : Nat)
    (game_full : GameFull) : Option (GameManager B Mv × List Event) :=
  match alLookup mgr.games game_full.id with
  | none => some (mgr, [])
  | some _ =>
    match Game.from_game_full C now mgr.our_id game_full with
    | none => none
    | some game =>
      let games := alUpdate mgr.games game_full.id game
      if game.finished then
        let current_game_id :=
          if game.game_id = mgr.current_game_id.getD "" then none else mgr.current_game_id
        some ({ mgr with games, current_game_id }, [])
      else
        let n :=
          if game.is_our_turn then GameNotification.OurTurn game.game_id
          else GameNotification.TheirTurn game.game_id
        some ({ mgr with games }, [Event.Notification (Notification.Game n)])

/-- `GameManager::process_game_update` from `src/lichess/game.rs`: apply the
state to the recorded game; for the current game emit a capture or move
clip; a finished current game additionally emits the result clip and
`GameFinished`, clears `current_game_id` and archives the game; otherwise
turn and move notifications are emitted. -/
def process_game_update (mgr : GameManager B Mv) (C : ChessApi B Mv) (game_id : String)
    (game_state : GameState) : GameManager B Mv × List Event :=
  match alLookup mgr.games game_id with
  | none => (mgr, [])
  | some game =>
    let is_current_game : Bool :=
      match mgr.current_game_id with
      | some current => decide (current = game_id)
      | none => false
    let previous_board := game.board
    let game := game.process_game_state C game_state
    let games := alUpdate mgr.games game_id game
    let clip_events : List Event :=
      if is_current_game then
        match game.last_move with
        | some last_move =>
          let clip := if C.dest_occupied previous_board last_move then Clip.Capture
                      else Clip.Move
          [Event.Action (Action.PlayClip clip)]
        | none => []
      else []
    if game.finished then
      if is_current_game then
        let our_color :=
          match game.us.color with
          | Color.White => "white"
          | Color.Black => "black"
        let clip :=
          match game_state.winner with
          | some winner => if winner = our_color then Clip.Win else Clip.Loss
          | none => Clip.Draw
        ({ mgr with games, current_game_id := none, last_finished_game := some game },
          clip_events ++ [Event.Action (Action.PlayClip clip),
            Event.Notification (Notification.Game GameNotification.GameFinished)])
      else
        ({ mgr with games }, clip_events)
    else
      let turn :=
        if game.is_our_turn then GameNotification.OurTurn game.game_id
        else GameNotification.TheirTurn game.game_id
      let moved_events :=
        if game.board ≠ previous_board then
          [Event.Notification (Notification.Game
            (GameNotification.PlayerMoved game.game_id (!game.is_our_turn)))]
        else []
      ({ mgr with games },
        clip_events ++ [Event.Notification (Notification.Game turn)] ++ moved_events)

/-- Property P1 of the spec, as an executable predicate on the manager: a
set `current_game_id` indexes a recorded game that is not finished. -/
def p1 (mgr : GameManager B Mv) : Bool :=
  match mgr.current_game_id with
  | none => true
  | some id =>
    match alLookup mgr.games id with
    | some game => !game.finished
    | none => false

end GameManager

end GameOps

theorem alLookup_alUpdate {α : Type} (l : List (String × α)) (k : String) (v : α)
    (k2 : String) :
    alLookup (alUpdate l k v) k2 = if k = k2 then some v else alLookup l k2 := by
  induction l with
  | nil =>
    by_cases h : k = k2 <;> simp [alUpdate, alInsert, alLookup, h]
  | cons p rest ih =>
    obtain ⟨k1, w⟩ := p
    by_cases h1 : k1 = k
    · subst h1
      by_cases h2 : k1 = k2 <;> simp [alUpdate, alInsert, alLookup, h2]
    · by_cases h2 : k = k2
      · subst h2
        simp only [alUpdate, alInsert] at ih ⊢
        simp [alLookup, h1, ih]
      · have h4 : ¬ k2 = k := fun hh => h2 hh.symm
        by_cases h3 : k1 = k2 <;>
          · simp only [alUpdate, alInsert] at ih ⊢
            simp [alLookup, h1, h2, h3, h4, ih]

theorem alInsert_snd {α : Type} (l : List (String × α)) (k : String) (v : α) :
    (alInsert l k v).2 = alLookup l k := by
  induction l with
  | nil => rfl
  | cons p rest ih =>
    obtain ⟨k1, w⟩ := p
    by_cases h : k1 = k <;> simp [alInsert, alLookup, h, ih]

theorem alLookup_alRemove_other {α : Type} (l : List (String × α)) (k k2 : String)
    (h : k ≠ k2) : alLookup (alRemove l k) k2 = alLookup l k2 := by
  induction l with
  | nil => rfl
  | cons p rest ih =>
    obtain ⟨k1, w⟩ := p
    by_cases h1 : k1 = k
    · subst h1
      simp [alRemove, alLookup, fun hh : k1 = k2 => h hh]
    · have h3 : ¬ k2 = k := fun hh => h hh.symm
      by_cases h2 : k1 = k2 <;> simp [alRemove, alLookup, h1, h2, h3, ih]

section GameManagerTheorems

variable {B Mv : Type} [DecidableEq B] [DecidableEq Mv]

theorem p1_iff (mgr : GameManager B Mv) :
    GameManager.p1 mgr = true ↔
      ∀ cid, mgr.current_game_id = some cid →
        ∃ g, alLookup mgr.games cid = some g ∧ g.finished = false := by
  unfold GameManager.p1
  cases hc : mgr.current_game_id with
  | none => simp
  | some cid =>
    cases hl : alLookup mgr.games cid with
    | none => simp [hl]
    | some g => simp [hl]

theorem from_game_full_finished (C : ChessApi B Mv) (now : Nat) (our_id : String)
    (gf : GameFull) (game : Game B Mv)
    (h : Game.from_game_full C now our_id gf = some game) : game.finished = false := by
  unfold Game.from_game_full at h
  cases hcol : color_from_game gf our_id with
  | none => rw [hcol] at h; cases h
  | some c =>
    rw [hcol] at h
    cases hst : gf.state with
    | none =>
      rw [hst] at h
      simp only [Option.some.injEq] at h
      rw [← h]
    | some gst =>
      rw [hst] at h
      simp only [Option.some.injEq] at h
      rw [← h]

/-- C1 (amended): the predicate P1 — a set `current_game_id` indexes an
unfinished entry of `games` — is preserved by `process_game_start`,
`process_game_full`, `process_game_update`, `switch_game` and
`current_game`; `process_game_finish` preserves it only when the finished
game id differs from the current game id (finishing the current game leaves
`current_game_id` pointing at a now-finished entry). -/
theorem p1_preservation (C : ChessApi B Mv) (mgr : GameManager B Mv)
    (hp : GameManager.p1 mgr = true) :
    (∀ (now : Nat) (info : GameEventInfo) (res : GameManager B Mv × List Event),
      mgr.process_game_start C now info = some res → GameManager.p1 res.1 = true) ∧
    (∀ (now : Nat) (gf : GameFull) (res : GameManager B Mv × List Event),
      mgr.process_game_full C now gf = some res → GameManager.p1 res.1 = true) ∧
    (∀ (game_id : String) (gs : GameState),
      GameManager.p1 (mgr.process_game_update C game_id gs).1 = true) ∧
    (∀ game_id : String, GameManager.p1 (mgr.switch_game game_id).1 = true) ∧
    GameManager.p1 mgr.current_game.2 = true ∧
    (∀ info : GameEventInfo,
      (∀ cid, mgr.current_game_id = some cid → info.game_id ≠ cid) →
      GameManager.p1 (mgr.process_game_finish info) = true) := by
  refine ⟨?_, ?_, ?_, ?_, ?_, ?_⟩
  · -- process_game_start
    intro now info res h
    unfold GameManager.process_game_start at h
    by_cases hc : mgr.current_game_id.isSome
    · rw [if_pos hc] at h
      simp only [Option.some.injEq] at h
      rw [← h]
      exact hp
    · rw [if_neg hc] at h
      have hcn : mgr.current_game_id = none := Option.not_isSome_iff_eq_none.mp hc
      cases hfs : Game.from_game_start C now info with
      | none => rw [hfs] at h; cases h
      | some game =>
        rw [hfs] at h
        simp only at h
        cases hr : (alInsert mgr.games info.game_id game).2 with
        | some old =>
          rw [hr] at h
          simp only [Option.some.injEq] at h
          rw [← h]
          simp [GameManager.p1, hcn]
        | none =>
          rw [hr] at h
          simp only [Option.some.injEq] at h
          rw [← h]
          simp [GameManager.p1, hcn]
  · -- process_game_full
    intro now gf res h
    unfold GameManager.process_game_full at h
    cases hl : alLookup mgr.games gf.id with
    | none =>
      rw [hl] at h
      simp only [Option.some.injEq] at h
      rw [← h]
      exact hp
    | some g0 =>
      rw [hl] at h
      cases hf : Game.from_game_full C now mgr.our_id gf with
      | none => rw [hf] at h; cases h
      | some game =>
        rw [hf] at h
        have hfin : game.finished = false := from_game_full_finished C now mgr.our_id gf game hf
        simp only [hfin, Bool.false_eq_true, if_false, Option.some.injEq] at h
        rw [← h]
        rw [p1_iff]
        intro cid hcid
        simp only at hcid
        by_cases hid : gf.id = cid
        · refine ⟨game, ?_, hfin⟩
          rw [alLookup_alUpdate, if_pos hid]
        · obtain ⟨g, hg, hgfin⟩ := (p1_iff mgr).mp hp cid hcid
          refine ⟨g, ?_, hgfin⟩
          rw [alLookup_alUpdate, if_neg hid]
          exact hg
  · -- process_game_update
    intro game_id gs
    unfold GameManager.process_game_update
    cases hl : alLookup mgr.games game_id with
    | none => exact hp
    | some g0
    => by_cases hfin : (g0.process_game_state C gs).finished = true
       all_goals by_cases hcur : (match mgr.current_game_id with
          | some current => decide (current = game_id)
          | none => false) = true
       · simp only [hfin, hcur, if_true]
         simp [GameManager.p1]
       · simp only [hfin, hcur, if_true, Bool.false_eq_true, if_false]
         rw [p1_iff]
         intro cid hcid
         simp only at hcid
         have hne : ¬ (game_id = cid) := by
           intro hh
           rw [hcid] at hcur
           simp [hh] at hcur
         obtain ⟨g, hg, hgfin⟩ := (p1_iff mgr).mp hp cid hcid
         refine ⟨g, ?_, hgfin⟩
         rw [alLookup_alUpdate, if_neg hne]
         exact hg
       all_goals
       · simp only [hfin, Bool.false_eq_true, if_false]
         rw [p1_iff]
         intro cid hcid
         simp only at hcid
         by_cases hid : game_id = cid
         · refine ⟨g0.process_game_state C gs, ?_, by simpa using hfin⟩
           rw [alLookup_alUpdate, if_pos hid]
         · obtain ⟨g, hg, hgfin⟩ := (p1_iff mgr).mp hp cid hcid
           refine ⟨g, ?_, hgfin⟩
           rw [alLookup_alUpdate, if_neg hid]
           exact hg
  · -- switch_game
    intro game_id
    unfold GameManager.switch_game
    cases hl : alLookup mgr.games game_id with
    | none => exact hp
    | some g0 =>
      by_cases hfin : g0.finished = true
      · simp only [hfin, if_true]
        rw [p1_iff]
        intro cid hcid
        show ∃ g, alLookup (alRemove mgr.games game_id) cid = some g ∧ g.finished = false
        cases hc : mgr.current_game_id with
        | none => rw [hc] at hcid; simp at hcid
        | some cur =>
          rw [hc] at hcid
          by_cases hcg : cur = game_id
          · simp [hcg] at hcid
          · simp [hcg] at hcid
            obtain ⟨g, hg, hgfin⟩ := (p1_iff mgr).mp hp cid (by rw [hc, hcid])
            refine ⟨g, ?_, hgfin⟩
            rw [alLookup_alRemove_other]
            · exact hg
            · rw [← hcid]; exact fun hh => hcg hh.symm
      · simp only [hfin, Bool.false_eq_true, if_false]
        rw [p1_iff]
        intro cid hcid
        simp only [Option.some.injEq] at hcid
        refine ⟨g0, ?_, by simpa using hfin⟩
        rw [← hcid]
        exact hl
  · -- current_game
    unfold GameManager.current_game
    cases hc : mgr.current_game_id with
    | none => exact hp
    | some cid =>
      obtain ⟨g, hg, hgfin⟩ := (p1_iff mgr).mp hp cid hc
      simp only [hg, hgfin, Bool.false_eq_true, if_false]
      exact hp
  · -- process_game_finish
    intro info hne
    unfold GameManager.process_game_finish
    cases hl : alLookup mgr.games info.game_id with
    | none => exact hp
    | some g0 =>
      rw [p1_iff]
      intro cid hcid
      simp only at hcid
      obtain ⟨g, hg, hgfin⟩ := (p1_iff mgr).mp hp cid hcid
      refine ⟨g, ?_, hgfin⟩
      rw [alLookup_alUpdate, if_neg (hne cid hcid)]
      exact hg

/-- C4 (amended): `switch_game(id)` adopts an existing unfinished game and
emits `NewCurrentGame`; for an existing finished game it removes the entry,
clears `current_game_id` when (and only when) it equals `id`, and enqueues
`FindNewGame`; for an id with no entry it only logs — the state is unchanged
and no event (in particular no `FindNewGame`) is sent. -/
theorem switch_game_cases (mgr : GameManager B Mv) (game_id : String) :
    (∀ game : Game B Mv, alLookup mgr.games game_id = some game → game.finished = false →
      mgr.switch_game game_id =
        ({ mgr with current_game_id := some game_id },
          [Event.Notification (Notification.Game GameNotification.NewCurrentGame)])) ∧
    (∀ game : Game B Mv, alLookup mgr.games game_id = some game → game.finished = true →
      mgr.switch_game game_id =
        ({ mgr with
            current_game_id :=
              match mgr.current_game_id with
              | some current => if current = game_id then none else some current
              | none => none,
            games := alRemove mgr.games game_id },
          [Event.Action Action.FindNewGame])) ∧
    (alLookup mgr.games game_id = none → mgr.switch_game game_id = (mgr, [])) := by
  refine ⟨?_, ?_, ?_⟩
  · intro game hl hfin
    unfold GameManager.switch_game
    rw [hl]
    simp [hfin]
  · intro game hl hfin
    unfold GameManager.switch_game
    rw [hl]
    simp [hfin]
  · intro hl
    unfold GameManager.switch_game
    rw [hl]

/-- C5 (amended): a `GameStart` for an id that already has an entry (with no
current game set) replaces the stored game with the one built from the start
payload — the source logs `Evicted game ...` — and emits no `GameStarted`
notification. -/
theorem process_game_start_overwrite (C : ChessApi B Mv) (now : Nat)
    (mgr : GameManager B Mv) (info : GameEventInfo) (old fresh : Game B Mv)
    (hcur : mgr.current_game_id = none)
    (hold : alLookup mgr.games info.game_id = some old)
    (hfresh : Game.from_game_start C now info = some fresh) :
    mgr.process_game_start C now info =
      some ({ mgr with games := alUpdate mgr.games info.game_id fresh }, []) ∧
    alLookup (alUpdate mgr.games info.game_id fresh) info.game_id = some fresh := by
  constructor
  · unfold GameManager.process_game_start
    rw [if_neg (by simp [hcur])]
    rw [hfresh]
    have hsnd : (alInsert mgr.games info.game_id fresh).2 = some old := by
      rw [alInsert_snd]
      exact hold
    simp only [hsnd]
    rfl
  · rw [alLookup_alUpdate, if_pos rfl]

end GameManagerTheorems

/-! ## A concrete instantiation of the chess interface, for evaluation -/

/-- A small test instance of `ChessApi`: a board is the list of FEN and move
strings applied to it, so distinct FENs and distinct move sequences give
distinct boards. -/
def toyApi : ChessApi (List String) String :=
  { default_board := []
    from_fen := fun fen => some [fen]
    move_from_uci := fun m => some m
    make_move := fun board m => board ++ [m]
    is_ongoing := fun _ => true
    side_to_move := fun board => if board.length % 2 = 0 then Color.White else Color.Black
    dest_occupied := fun _ _ => false }

/-- A recorded, unfinished game with id `"g"`. -/
def gameG : Game (List String) String :=
  { game_id := "g", speed := Speed.Blitz, timestamp := 0, clock_settings := none,
    board := [], move_history := [], last_move := none, is_our_turn := true,
    us := { name := "Twitch", color := Color.White, rating := none, timer := Timer.new 0 },
    opponent := { name := "opp", color := Color.Black, rating := none, timer := Timer.new 0 },
    timers_started := false, finished := false }

/-- A manager whose current game is the unfinished `"g"`. -/
def mgrG : GameManager (List String) String :=
  { our_id := "us", games := [("g", gameG)], last_finished_game := none,
    current_game_id := some "g" }

/-- A `GameEventInfo` payload for game `"g"`. -/
def infoG : GameEventInfo :=
  { game_id := "g", color := ApiColor.White, is_my_turn := false, last_move := "",
    fen := "startpos", seconds_left := none, speed := Speed.Blitz,
    opponent := { id := some "opp", username := "opp", rating := none } }

/-- Counterexample to C1 as stated: P1 holds of a manager whose current game
`"g"` is recorded and unfinished, but after `process_game_finish` for `"g"`
the predicate is false — `current_game_id` still points at `"g"` while the
entry is now finished. (Quiescence does not restore it: the engine's
follow-up `FindNewGame` calls `current_game`, which removes the finished
entry but leaves `current_game_id` set.) -/
theorem p1_not_preserved_by_finish :
    GameManager.p1 mgrG = true ∧
    GameManager.p1 (mgrG.process_game_finish infoG) = false := by
  constructor
  · rfl
  · rfl

/-- Concrete instance of C1 (amended): preservation applied to the manager
holding the unfinished current game `"g"`, through `switch_game "g"`. -/
theorem p1_preservation_witness :
    GameManager.p1 (mgrG.switch_game "g").1 = true :=
  (p1_preservation toyApi mgrG rfl).2.2.2.1 "g"

/-- The empty manager: no games, no current game. -/
def emptyMgr : GameManager (List String) String :=
  GameManager.new "us"

/-- Counterexample to C4 as stated: switching to an id with no entry leaves
the manager unchanged and sends no event at all — in particular it does not
enqueue `FindNewGame`, which the claim requires for this case. -/
theorem switch_game_missing_entry_counterexample :
    emptyMgr.switch_game "g" = (emptyMgr, []) ∧
    Event.Action Action.FindNewGame ∉ (emptyMgr.switch_game "g").2 := by
  refine ⟨rfl, ?_⟩
  intro h
  simp [emptyMgr, GameManager.new, GameManager.switch_game, alLookup] at h

/-- Concrete instance of C4 (amended): adopting the unfinished game `"g"`. -/
theorem switch_game_cases_witness :
    mgrG.switch_game "g" =
      ({ mgrG with current_game_id := some "g" },
        [Event.Notification (Notification.Game GameNotification.NewCurrentGame)]) :=
  (switch_game_cases mgrG "g").1 gameG rfl rfl

/-- The manager recording `"g"` with no current game set. -/
def startMgr : GameManager (List String) String :=
  { our_id := "us", games := [("g", gameG)], last_finished_game := none,
    current_game_id := none }

/-- The game `Game::from_game_start` builds from `infoG` under `toyApi` at
instant 5. -/
def freshG : Game (List String) String :=
  { game_id := "g", speed := Speed.Blitz, timestamp := 5, clock_settings := none,
    board := ["startpos"], move_history := [], last_move := none, is_our_turn := false,
    us := { name := "Twitch", color := Color.White, rating := none, timer := Timer.new 0 },
    opponent := { name := "opp", color := Color.Black, rating := none, timer := Timer.new 0 },
    timers_started := false, finished := false }

/-- Counterexample to C5 as stated: a second `GameStart` for `"g"` (current
game unset) does not leave the stored game unchanged — the entry is
overwritten by the freshly built game, which differs from the stored one.
No `GameStarted` notification is emitted (that part of the claim holds). -/
theorem process_game_start_eviction_counterexample :
    startMgr.process_game_start toyApi 5 infoG =
      some ({ startMgr with games := [("g", freshG)] }, []) ∧
    freshG ≠ gameG := by
  constructor
  · rfl
  · decide

/-- Concrete instance of C5 (amended): the overwrite applied to `startMgr`. -/
theorem process_game_start_overwrite_witness :
    startMgr.process_game_start toyApi 5 infoG =
      some ({ startMgr with games := alUpdate startMgr.games "g" freshG }, []) :=
  (process_game_start_overwrite toyApi 5 startMgr infoG gameG freshG rfl rfl rfl).1

/-! ## Board consistency (C2) -/

section BoardReplay

variable {B Mv : Type} [DecidableEq B] [DecidableEq Mv]

/-- Replay of a move history, in order, from a given starting board — the
spec's P6 reading ("the board stored in a Game equals the replay of its
`move_history` from the initial FEN", instantiated at a starting board).
Empty and unparsable move strings contribute nothing, as in
`board_from_moves`. -/
def replayMoves (C : ChessApi B Mv) (start : B) (moves : List String) : B :=
  moves.foldl
    (fun board m =>
      if m = "" then board
      else
        match C.move_from_uci m with
        | some mv => C.make_move board mv
        | none => board)
    start

theorem board_from_moves_go_eq_replay (C : ChessApi B Mv) :
    ∀ (moves : List String) (b b' : B),
      board_from_moves_go C b moves = some b' → b' = replayMoves C b moves := by
  intro moves
  induction moves with
  | nil =>
    intro b b' h
    simp only [board_from_moves_go, Option.some.injEq] at h
    simp [replayMoves, h]
  | cons m rest ih =>
    intro b b' h
    simp only [board_from_moves_go] at h
    by_cases hm : m = ""
    · rw [if_pos hm] at h
      simpa [replayMoves, hm] using ih b b' h
    · rw [if_neg hm] at h
      by_cases hon : C.is_ongoing b = true
      · rw [if_pos hon] at h
        cases hmv : C.move_from_uci m with
        | some mv =>
          rw [hmv] at h
          simpa [replayMoves, hm, hmv] using ih (C.make_move b mv) b' h
        | none =>
          rw [hmv] at h
          simpa [replayMoves, hm, hmv] using ih b b' h
      · rw [if_neg hon] at h
        cases h

/-- C2 (amended): for every non-error update the stored board equals the
replay of the stored `move_history` from the standard starting board
(`Board::default()`), regardless of the game's initial FEN: this holds for
`process_game_state` and for a `GameFull` replacement carrying a state whose
move list replays. A `GameFull` without state stores the initial-FEN board
with an empty move history (there the two readings agree). -/
theorem board_replay_from_default (C : ChessApi B Mv) :
    (∀ (g : Game B Mv) (gs : GameState) (b : B),
      board_from_moves C (splitSpace gs.moves) = some b →
      (g.process_game_state C gs).board =
        replayMoves C C.default_board (g.process_game_state C gs).move_history) ∧
    (∀ (now : Nat) (our_id : String) (gf : GameFull) (gst : GameState)
        (g : Game B Mv) (b : B),
      gf.state = some gst →
      board_from_moves C (splitSpace gst.moves) = some b →
      Game.from_game_full C now our_id gf = some g →
      g.board = replayMoves C C.default_board g.move_history) ∧
    (∀ (now : Nat) (our_id : String) (gf : GameFull) (g : Game B Mv),
      gf.state = none →
      Game.from_game_full C now our_id gf = some g →
      g.move_history = [] ∧ g.board = board_from_api_fen C gf.initial_fen) := by
  refine ⟨?_, ?_, ?_⟩
  · intro g gs b h
    unfold Game.process_game_state
    simp only [board_from_moves] at h
    simp only [board_from_moves, h]
    exact board_from_moves_go_eq_replay C _ _ _ h
  · intro now our_id gf gst g b hst hbm hfull
    unfold Game.from_game_full at hfull
    cases hcol : color_from_game gf our_id with
    | none => rw [hcol] at hfull; cases hfull
    | some c =>
      rw [hcol, hst] at hfull
      simp only [Option.some.injEq] at hfull
      rw [← hfull]
      simp only [hbm, Option.getD_some]
      exact board_from_moves_go_eq_replay C _ _ _ hbm
  · intro now our_id gf g hst hfull
    unfold Game.from_game_full at hfull
    cases hcol : color_from_game gf our_id with
    | none => rw [hcol] at hfull; cases hfull
    | some c =>
      rw [hcol, hst] at hfull
      simp only [Option.some.injEq] at hfull
      rw [← hfull]
      exact ⟨rfl, rfl⟩

end BoardReplay

/-- A `GameFull` payload for game `"g"` whose initial FEN is a custom
position (not `startpos`) and whose state holds the single move `"a"`. -/
def customFullG : GameFull :=
  { id := "g", speed := Speed.Blitz, initial_fen := some "custom", clock := none,
    white := { id := "us", name := "Twitch", rating := none },
    black := { id := "opp", name := "opp", rating := none },
    state := some { moves := "a", wtime := 0, btime := 0, winc := 0, binc := 0,
                    status := "started", winner := none } }

/-- Counterexample to C2 as stated: under the test chess instance, the game
built from `customFullG` stores the board replayed from the default starting
board (`["a"]`), while the replay of its `move_history` from the game's
initial FEN `"custom"` is `["custom", "a"]` — the two differ, because
`board_from_moves` always replays from `Board::default()` and ignores the
initial FEN. -/
theorem board_replay_initial_fen_counterexample :
    (Game.from_game_full toyApi 0 "us" customFullG).map (fun g => g.board) =
      some ["a"] ∧
    (Game.from_game_full toyApi 0 "us" customFullG).map
        (fun g => replayMoves toyApi (board_from_api_fen toyApi customFullG.initial_fen)
          g.move_history) =
      some ["custom", "a"] ∧
    (["a"] : List String) ≠ ["custom", "a"] := by
  refine ⟨rfl, rfl, ?_⟩
  decide

/-- The server update carrying the two moves `"a b"`. -/
def gsAB : GameState :=
  { moves := "a b", wtime := 1000, btime := 2000, winc := 0, binc := 30000,
    status := "started", winner := none }

/-- Concrete instance of C2 (amended): a state update replayed on the
recorded game `"g"`. -/
theorem board_replay_from_default_witness :
    (gameG.process_game_state toyApi gsAB).board =
      replayMoves toyApi toyApi.default_board
        (gameG.process_game_state toyApi gsAB).move_history :=
  (board_replay_from_default toyApi).1 gameG gsAB ["a", "b"] rfl

end ChatPlaysChess
